import Mathlib

/-!
Verification of the observer-ecology trading simulator.

The TypeScript sources are shallowly embedded: JS numbers become real
numbers (`ℝ`), JS integer remainder `%` becomes `Int.tmod` (sign of the
dividend), `Math.round` becomes Mathlib's `round` (both are
⌊x + 1/2⌋), optional fields become `Option`, and every call to the
unseeded `Math.random()` becomes an explicit real-valued draw passed in
as an argument.  `Array.prototype.sort` (stable since ES2019) is
modelled by a stable insertion sort on the comparator's key.
-/

open scoped Classical

noncomputable section

/-! ## Data model (src/types.ts) -/

structure PrimeEmbedding where
  prime : ℕ
  amplitude : ℝ
  phase : ℝ
  deriving DecidableEq

inductive TradingAction
  | BUY
  | SELL
  | HOLD
  deriving DecidableEq

inductive Direction
  | UP
  | DOWN
  deriving DecidableEq

inductive MarketRegime
  | trending
  | ranging
  | volatile
  deriving DecidableEq

structure MarketState where
  price : ℝ
  volatility : ℝ
  trend : ℝ
  regime : String

structure TradingExperience where
  timestamp : ℝ
  marketState : MarketState
  action : TradingAction
  proposedSize : ℝ
  outcome : ℝ
  wasExecuted : Bool

structure StrategyGenes where
  riskTolerance : ℝ
  trendFollowing : ℝ
  volatilityPreference : ℝ
  holdingBias : ℝ

structure Observer where
  id : ℕ
  n : ℝ
  proposedAction : TradingAction
  proposedSize : ℝ
  reward : ℝ
  tradingReward : ℝ
  embedding : List PrimeEmbedding
  error : ℝ
  contributedToTrade : Bool
  lifetimeTradingPnL : ℝ
  experienceBuffer : List TradingExperience
  strategyGenes : StrategyGenes
  fitness : ℝ

inductive PositionType
  | LONG
  | SHORT
  deriving DecidableEq

structure Position where
  type : PositionType
  entryPrice : ℝ
  entryTime : ℝ
  size : ℝ
  exitPrice : Option ℝ := none
  exitTime : Option ℝ := none
  pnl : Option ℝ := none
  pnlPercent : Option ℝ := none

structure EpochMetrics where
  epoch : ℕ
  timeframe : String
  winRate : ℝ
  totalPnL : ℝ
  sharpeRatio : ℝ
  maxDrawdown : ℝ
  totalTrades : ℕ
  avgFitness : ℝ
  diversityScore : ℝ
  validationWinRate : Option ℝ := none
  validationPnL : Option ℝ := none

structure EcologyFeatures where
  pricePrediction : ℝ
  direction : Direction
  confidence : ℝ
  volatilityEstimate : ℝ
  trendStrength : ℝ
  marketRegime : MarketRegime
  phaseConsensus : ℝ

structure TradingSignal where
  action : TradingAction
  confidence : ℝ
  entryPrice : ℝ
  predictedDirection : Direction
  predictedPrice : ℝ
  timestamp : ℝ
  ecologyFeatures : Option EcologyFeatures

/-! ## Constants (src/constants.ts) -/

/-- First 30 prime numbers. -/
def PRIMES : List ℕ :=
  [2, 3, 5, 7, 11, 13, 17, 19, 23, 29, 31, 37, 41,
   43, 47, 53, 59, 61, 67, 71, 73, 79, 83, 89, 97, 101, 103, 107, 109, 113]

/-! ## Embedding and reward primitives (src/unnamed/part_004) -/

/-- `calculateEmbedding(n, collectivePhaseVector)`.  `Math.round` is `round`
(both round half toward positive infinity); the JS remainder `intN % p`
carries the sign of the dividend, hence `Int.tmod`.  The phase vector is a
total map on primes, so the `collectivePhaseVector[p] || 0` fallback for a
missing key reduces to the stored value (`0` maps to `0`). -/
def calculateEmbedding (n : ℝ) (collectivePhaseVector : ℕ → ℝ) : List PrimeEmbedding :=
  let intN : ℤ := round n
  PRIMES.map fun (p : ℕ) =>
    let n_mod_p : ℤ := Int.tmod intN (p : ℤ)
    let amplitude : ℝ := 1 - (n_mod_p : ℝ) / ((p : ℝ) - 1)
    let collectivePhase : ℝ := collectivePhaseVector p
    let phase : ℝ := (2 * Real.pi * ((n_mod_p : ℝ) + collectivePhase)) / p
    { prime := p, amplitude := amplitude, phase := phase }

structure RewardResult where
  reward : ℝ
  error : ℝ

/-- `calculateReward(prediction, actual)` read over the exact reals:
`error = |prediction - actual|`, `k = 10 / actual`,
`reward = exp(-k * error ** 2)`. -/
def calculateReward (prediction actual : ℝ) : RewardResult :=
  let error := |prediction - actual|
  let k := 10 / actual
  let reward := Real.exp (-k * error ^ 2)
  { reward := reward, error := error }

/-! ## JS number semantics for the division-by-zero path

JS division never throws: `10 / 0` is `Infinity`.  To settle what
`calculateReward` does at `actual == 0` we re-read the same source over a
type that keeps the IEEE-754 special values (finite values stay exact
reals; there is no negative zero, and rounding is not modelled — neither
matters on the paths under study). -/

inductive JFloat
  | num (x : ℝ)
  | inf
  | ninf
  | nan

namespace JFloat

def jsub : JFloat → JFloat → JFloat
  | num x, num y => num (x - y)
  | nan, _ => nan
  | _, nan => nan
  | inf, inf => nan
  | inf, _ => inf
  | ninf, ninf => nan
  | ninf, _ => ninf
  | num _, inf => ninf
  | num _, ninf => inf

def jabs : JFloat → JFloat
  | num x => num |x|
  | nan => nan
  | _ => inf

def jdiv : JFloat → JFloat → JFloat
  | num x, num y =>
      if y = 0 then (if x = 0 then nan else if 0 < x then inf else ninf)
      else num (x / y)
  | nan, _ => nan
  | _, nan => nan
  | inf, inf => nan
  | inf, ninf => nan
  | ninf, inf => nan
  | ninf, ninf => nan
  | inf, num y => if y < 0 then ninf else inf
  | ninf, num y => if y < 0 then inf else ninf
  | num _, inf => num 0
  | num _, ninf => num 0

def jmul : JFloat → JFloat → JFloat
  | num x, num y => num (x * y)
  | nan, _ => nan
  | _, nan => nan
  | inf, inf => inf
  | inf, ninf => ninf
  | ninf, inf => ninf
  | ninf, ninf => inf
  | inf, num y => if y = 0 then nan else if 0 < y then inf else ninf
  | num x, inf => if x = 0 then nan else if 0 < x then inf else ninf
  | ninf, num y => if y = 0 then nan else if 0 < y then ninf else inf
  | num x, ninf => if x = 0 then nan else if 0 < x then ninf else inf

def jneg : JFloat → JFloat
  | num x => num (-x)
  | inf => ninf
  | ninf => inf
  | nan => nan

/-- `x ** 2`. -/
def jpow2 : JFloat → JFloat
  | num x => num (x ^ 2)
  | nan => nan
  | _ => inf

/-- `Math.exp`: `exp(Infinity) = Infinity`, `exp(-Infinity) = 0`. -/
def jexp : JFloat → JFloat
  | num x => num (Real.exp x)
  | inf => inf
  | ninf => num 0
  | nan => nan

end JFloat

/-- `calculateReward` re-read over `JFloat`, line for line. -/
def calculateRewardJS (prediction actual : JFloat) : JFloat × JFloat :=
  let error := JFloat.jabs (JFloat.jsub prediction actual)
  let k := JFloat.jdiv (JFloat.num 10) actual
  let reward := JFloat.jexp (JFloat.jmul (JFloat.jneg k) (JFloat.jpow2 error))
  (reward, error)

/-! ## Credit assignment (src/unnamed/part_005, rlTradingService) -/

/-- `assignTradingCredit(observers, tradedAction, tradeResult)`.  The JS
guards `tradeResult.pnl || 0` and `tradeResult.pnlPercent || 0` become
`Option.getD 0` (an actual `0` is mapped to `0` by both). -/
def assignTradingCredit (observers : List Observer) (tradedAction : TradingAction)
    (tradeResult : Option Position) : List Observer :=
  match tradeResult with
  | none =>
      observers.map fun obs => { obs with contributedToTrade := false, tradingReward := 0 }
  | some tr =>
      if tradedAction = TradingAction.HOLD then
        observers.map fun obs => { obs with contributedToTrade := false, tradingReward := 0 }
      else
        let tradePnL := tr.pnl.getD 0
        let tradePnLPercent := tr.pnlPercent.getD 0
        observers.map fun obs =>
          if obs.proposedAction = tradedAction then
            let sizeAdjustedPnL := tradePnLPercent * obs.proposedSize
            let tradingReward := 1 / (1 + Real.exp (-sizeAdjustedPnL * 10))
            { obs with
                contributedToTrade := true
                tradingReward := tradingReward
                lifetimeTradingPnL := obs.lifetimeTradingPnL + tradePnL * obs.proposedSize }
          else
            { obs with contributedToTrade := false, tradingReward := 0 }

/-- The spec's sigmoid, for stating the credit-assignment claim. -/
def sigmoid (x : ℝ) : ℝ := 1 / (1 + Real.exp (-x))

/-! ## Evolutionary learning (src/unnamed/part_005, evolutionaryLearningService) -/

/-- Helper of `calculateFitness`: population standard deviation. -/
def calculateStdDev (values : List ℝ) : ℝ :=
  if values.length = 0 then 0
  else
    let mean := values.sum / (values.length : ℝ)
    let squaredDiffs := values.map fun val => (val - mean) ^ 2
    let variance := squaredDiffs.sum / (values.length : ℝ)
    Real.sqrt variance

/-- `calculateFitness(observer)`: 30% prediction, 50% recent trading,
20% lifetime P&L. -/
def calculateFitness (observer : Observer) : ℝ :=
  let predictionScore := observer.reward
  let executedExperiences := observer.experienceBuffer.filter fun exp => exp.wasExecuted
  let tradingScore : ℝ :=
    if 0 < observer.experienceBuffer.length ∧ 0 < executedExperiences.length then
      let avgOutcome :=
        (executedExperiences.map fun exp => exp.outcome).sum / (executedExperiences.length : ℝ)
      let wins := (executedExperiences.filter fun exp => 0 < exp.outcome).length
      let winRate := (wins : ℝ) / (executedExperiences.length : ℝ)
      let outcomes := executedExperiences.map fun exp => exp.outcome
      let stdDev := calculateStdDev outcomes
      let consistency := if 0 < stdDev then min 1 (avgOutcome / stdDev) else 0
      max 0 (min 1 (0.5 + avgOutcome * 0.004 + (winRate - 0.5) * 0.3 + consistency * 0.15))
    else 0.5
  let lifetimeScore := max 0 (min 1 (0.5 + observer.lifetimeTradingPnL / 2000))
  predictionScore * 0.3 + tradingScore * 0.5 + lifetimeScore * 0.2

/-- Stable insertion of `x` into `l`, descending on `key`: `x` passes over
exactly the elements whose key is strictly greater than its own, so equal
keys keep their original relative order — the behavior of the stable
`Array.prototype.sort` with comparator `(a, b) => key(b) - key(a)`. -/
def insertDescBy (key : Observer → ℝ) (x : Observer) : List Observer → List Observer
  | [] => [x]
  | y :: ys => if key y ≤ key x then x :: y :: ys else y :: insertDescBy key x ys

/-- Stable sort, descending on `key`. -/
def sortDescBy (key : Observer → ℝ) (l : List Observer) : List Observer :=
  l.foldr (insertDescBy key) []

/-- `selectEliteEnsemble(observers, topN = 3)`: recompute fitness, sort by
fitness descending (stable), take the first `topN`. -/
def selectEliteEnsemble (observers : List Observer) (topN : ℕ := 3) : List Observer :=
  let observersWithFitness := observers.map fun obs =>
    { obs with fitness := calculateFitness obs }
  (sortDescBy (fun o => o.fitness) observersWithFitness).take topN

/-- `evolveObserver(observer, elite, eliteFitness, learningRate)`. -/
def evolveObserver (observer elite : Observer) (eliteFitness learningRate : ℝ) : Observer :=
  let observerFitness := calculateFitness observer
  if eliteFitness ≤ observerFitness then observer
  else
    let fitnessGap := eliteFitness - observerFitness
    let evolutionStrength := min 1 (fitnessGap * 2) * learningRate
    let evolvedGenes : StrategyGenes :=
      { riskTolerance := observer.strategyGenes.riskTolerance +
          (elite.strategyGenes.riskTolerance - observer.strategyGenes.riskTolerance)
            * evolutionStrength
        trendFollowing := observer.strategyGenes.trendFollowing +
          (elite.strategyGenes.trendFollowing - observer.strategyGenes.trendFollowing)
            * evolutionStrength
        volatilityPreference := observer.strategyGenes.volatilityPreference +
          (elite.strategyGenes.volatilityPreference - observer.strategyGenes.volatilityPreference)
            * evolutionStrength
        holdingBias := observer.strategyGenes.holdingBias +
          (elite.strategyGenes.holdingBias - observer.strategyGenes.holdingBias)
            * evolutionStrength }
    { observer with strategyGenes := evolvedGenes, fitness := observerFitness }

/-- The up-to-nine `Math.random()` draws one call of `mutateStrategyGenes`
may consume, made explicit. -/
structure MutationDraws where
  gate : ℝ
  coin1 : ℝ
  coin2 : ℝ
  coin3 : ℝ
  coin4 : ℝ
  pert1 : ℝ
  pert2 : ℝ
  pert3 : ℝ
  pert4 : ℝ

/-- `mutateStrategyGenes(observer, mutationRate, mutationStrength = 0.1)`. -/
def mutateStrategyGenes (observer : Observer) (mutationRate : ℝ) (mutationStrength : ℝ := 0.1)
    (d : MutationDraws) : Observer :=
  if mutationRate < d.gate then observer
  else
    let g0 := observer.strategyGenes
    let g1 := if d.coin1 < 0.5 then
        { g0 with
            riskTolerance := max 0 (min 1 (g0.riskTolerance + (d.pert1 - 0.5) * mutationStrength)) }
      else g0
    let g2 := if d.coin2 < 0.5 then
        { g1 with
            trendFollowing := max 0 (min 1 (g1.trendFollowing + (d.pert2 - 0.5) * mutationStrength)) }
      else g1
    let g3 := if d.coin3 < 0.5 then
        { g2 with
            volatilityPreference :=
              max 0 (min 1 (g2.volatilityPreference + (d.pert3 - 0.5) * mutationStrength)) }
      else g2
    let g4 := if d.coin4 < 0.5 then
        { g3 with
            holdingBias :=
              max (-1) (min 1 (g3.holdingBias + (d.pert4 - 0.5) * mutationStrength * 2)) }
      else g3
    { observer with strategyGenes := g4 }

/-- `calculateAdaptiveMutationRate(observer, baseMutationRate, recentSteps = 20)`.
`buffer.slice(-recentSteps)` keeps the last `recentSteps` entries; JS
`slice(-0)` is `slice(0)`, the whole array, hence the `recentSteps = 0`
branch. -/
def calculateAdaptiveMutationRate (observer : Observer) (baseMutationRate : ℝ)
    (recentSteps : ℕ := 20) : ℝ :=
  if observer.experienceBuffer.length < 5 then baseMutationRate * 1.5
  else
    let recentExperiences :=
      if recentSteps = 0 then observer.experienceBuffer
      else observer.experienceBuffer.drop (observer.experienceBuffer.length - recentSteps)
    let executedRecent := recentExperiences.filter fun exp => exp.wasExecuted
    if executedRecent.length = 0 then baseMutationRate
    else
      let recentAvgOutcome :=
        (executedRecent.map fun exp => exp.outcome).sum / (executedRecent.length : ℝ)
      let recentWins := (executedRecent.filter fun exp => 0 < exp.outcome).length
      let recentWinRate := (recentWins : ℝ) / (executedRecent.length : ℝ)
      let m1 : ℝ :=
        if recentWinRate < 0.4 then 1.5 + (0.4 - recentWinRate) * 3
        else if 0.6 < recentWinRate then 1.0 - (recentWinRate - 0.6) * 1.75
        else 1.0
      let m2 : ℝ :=
        if recentAvgOutcome < -10 then m1 * 1.2
        else if 10 < recentAvgOutcome then m1 * 0.8
        else m1
      let mutationMultiplier := max 0.3 (min 3.0 m2)
      baseMutationRate * mutationMultiplier

/-! ## Professional training service (src/services/professionalTrainingService.ts) -/

/-- `Math.max(...values)` over a spread array; the source only applies it
to non-empty arrays (the empty case, `-Infinity` in JS, is unreachable
behind the `length < minEpochs` guard). -/
def jsMaxList : List ℝ → ℝ
  | [] => 0
  | x :: xs => xs.foldl max x

/-- `shouldStopEarly(epochMetrics, patience = 3, minEpochs = 3)`.
`findIndex` compares with strict equality; the searched value is attained
in the filtered list, so the JS not-found result `-1` is unreachable
(Lean's `findIdx` would return the length there). -/
def shouldStopEarly (epochMetrics : List EpochMetrics) (patience : ℕ := 3)
    (minEpochs : ℕ := 3) : Bool :=
  if epochMetrics.length < minEpochs then false
  else
    let validationMetrics := epochMetrics.filter fun m => m.validationWinRate.isSome
    if validationMetrics.length < minEpochs then false
    else
      let bestValWinRate := jsMaxList (validationMetrics.map fun m => m.validationWinRate.getD 0)
      let bestEpochIndex :=
        validationMetrics.findIdx fun m => m.validationWinRate = some bestValWinRate
      let epochsSinceBest := validationMetrics.length - 1 - bestEpochIndex
      decide (patience ≤ epochsSinceBest)

/-- Population variance of one strategy gene across the population
(the inner loop of `calculateObserverDiversity`). -/
def geneVariance (values : List ℝ) : ℝ :=
  let mean := values.sum / (values.length : ℝ)
  (values.map fun val => (val - mean) ^ 2).sum / (values.length : ℝ)

/-- `calculateObserverDiversity(observers)`: sum of the four per-gene
variances, normalized by `4 * 0.25` and capped at 1. -/
def calculateObserverDiversity (observers : List Observer) : ℝ :=
  if observers.length = 0 then 0
  else
    let totalVariance :=
      geneVariance (observers.map fun obs => obs.strategyGenes.riskTolerance) +
      geneVariance (observers.map fun obs => obs.strategyGenes.trendFollowing) +
      geneVariance (observers.map fun obs => obs.strategyGenes.volatilityPreference) +
      geneVariance (observers.map fun obs => obs.strategyGenes.holdingBias)
    min 1 (totalVariance / (4 * 0.25))

/-- The four `Math.random()` draws `maintainDiversity` consumes for one
perturbed observer, made explicit (indexed by observer id). -/
structure GeneDraws where
  r1 : ℝ
  r2 : ℝ
  r3 : ℝ
  r4 : ℝ

/-- `maintainDiversity(observers, minDiversity = 0.3, perturbationStrength = 0.2)`.
`Math.floor(length * 0.3)` is modelled exactly as `3 * length / 10` (Nat
division).  `sorted.slice(-numToPerturb)` keeps the `numToPerturb` worst
observers — except that JS `slice(-0)` is `slice(0)`, the whole array,
hence the `numToPerturb = 0` branch. -/
def maintainDiversity (observers : List Observer) (minDiversity : ℝ := 0.3)
    (perturbationStrength : ℝ := 0.2) (draws : ℕ → GeneDraws) : List Observer :=
  let currentDiversity := calculateObserverDiversity observers
  if minDiversity ≤ currentDiversity then observers
  else
    let sortedByFitness := sortDescBy calculateFitness observers
    let numToPerturb := 3 * observers.length / 10
    let toPerturbIds : List ℕ :=
      (if numToPerturb = 0 then sortedByFitness
       else sortedByFitness.drop (sortedByFitness.length - numToPerturb)).map fun obs => obs.id
    observers.map fun obs =>
      if obs.id ∈ toPerturbIds then
        { obs with
            strategyGenes :=
              { riskTolerance :=
                  max 0 (min 1 (obs.strategyGenes.riskTolerance +
                    ((draws obs.id).r1 - 0.5) * perturbationStrength))
                trendFollowing :=
                  max 0 (min 1 (obs.strategyGenes.trendFollowing +
                    ((draws obs.id).r2 - 0.5) * perturbationStrength))
                volatilityPreference :=
                  max 0 (min 1 (obs.strategyGenes.volatilityPreference +
                    ((draws obs.id).r3 - 0.5) * perturbationStrength))
                holdingBias :=
                  max (-1) (min 1 (obs.strategyGenes.holdingBias +
                    ((draws obs.id).r4 - 0.5) * perturbationStrength * 2)) } }
      else obs

/-! ## Trading signal (src/unnamed/part_003, tradingService) -/

structure TradingConfig where
  minConfidence : ℝ
  basePositionSize : ℝ
  minStopLoss : ℝ
  maxStopLoss : ℝ
  rewardRiskRatio : ℝ
  useAdaptiveRisk : Bool

def DEFAULT_CONFIG : TradingConfig :=
  { minConfidence := 0.60
    basePositionSize := 0.01
    minStopLoss := 1.0
    maxStopLoss := 5.0
    rewardRiskRatio := 2.5
    useAdaptiveRisk := true }

/-- `generateTradingSignal(predictedPrice, currentPrice, directionAccuracy,
lastPrediction, timestamp, ecologyFeatures?, config = DEFAULT_CONFIG)`. -/
def generateTradingSignal (predictedPrice currentPrice directionAccuracy : ℝ)
    (lastPrediction : Direction) (timestamp : ℝ)
    (ecologyFeatures : Option EcologyFeatures)
    (config : TradingConfig := DEFAULT_CONFIG) : TradingSignal :=
  let confidence := directionAccuracy / 100
  let action : TradingAction :=
    match ecologyFeatures with
    | some ef =>
        let effectiveMinConfidence :=
          config.minConfidence + (if ef.marketRegime = MarketRegime.volatile then 0.1 else 0)
        let requiresConsensus :=
          ef.marketRegime = MarketRegime.ranging ∧ ef.phaseConsensus < 0.5
        if effectiveMinConfidence ≤ confidence ∧ ¬requiresConsensus then
          match lastPrediction with
          | Direction.UP => TradingAction.BUY
          | Direction.DOWN => TradingAction.SELL
        else TradingAction.HOLD
    | none =>
        if config.minConfidence ≤ confidence then
          match lastPrediction with
          | Direction.UP => TradingAction.BUY
          | Direction.DOWN => TradingAction.SELL
        else TradingAction.HOLD
  { action := action
    confidence := confidence
    entryPrice := currentPrice
    predictedDirection := lastPrediction
    predictedPrice := predictedPrice
    timestamp := timestamp
    ecologyFeatures := ecologyFeatures }

/-! ## Collective phase update (src/App.tsx, runSimulationStep) -/

/-- The per-step phase-vector update loop of `runSimulationStep`: for each
prime `p`, `tradingWeight = clamp(1 + elitePnL/1000, 0.5, 1.5)`,
`effLR = learningRate * tradingWeight`, and the phase at `p` moves to the
convex mix of its old value and `Math.round(eliteN) % p`.  Keys outside
`PRIMES` are untouched (the loop runs over `PRIMES` only). -/
def updateCollectivePhase (oldPhaseVector : ℕ → ℝ) (learningRate eliteN elitePnL : ℝ) :
    ℕ → ℝ := fun p =>
  if p ∈ PRIMES then
    let oldPhase := oldPhaseVector p
    let eliteMod : ℤ := Int.tmod (round eliteN) (p : ℤ)
    let tradingWeight := max 0.5 (min 1.5 (1.0 + elitePnL / 1000))
    let effectiveLearningRate := learningRate * tradingWeight
    (1 - effectiveLearningRate) * oldPhase + effectiveLearningRate * (eliteMod : ℝ)
  else oldPhaseVector p

/-- Several simulation steps in a row: each step contributes its own elite
forecast and elite lifetime P&L. -/
def iteratePhaseUpdates (phaseVector : ℕ → ℝ) (learningRate : ℝ)
    (steps : List (ℝ × ℝ)) : ℕ → ℝ :=
  steps.foldl (fun acc st => updateCollectivePhase acc learningRate st.1 st.2) phaseVector

/-! ## Spec-side predicates and concrete fixtures -/

/-- The documented valid ranges of the four strategy genes. -/
def genesInRange (g : StrategyGenes) : Prop :=
  0 ≤ g.riskTolerance ∧ g.riskTolerance ≤ 1 ∧
  0 ≤ g.trendFollowing ∧ g.trendFollowing ≤ 1 ∧
  0 ≤ g.volatilityPreference ∧ g.volatilityPreference ≤ 1 ∧
  -1 ≤ g.holdingBias ∧ g.holdingBias ≤ 1

/-- Placeholder element for out-of-range `List.getD` reads. -/
def defaultObserver : Observer :=
  { id := 0
    n := 0
    proposedAction := TradingAction.HOLD
    proposedSize := 0
    reward := 0
    tradingReward := 0
    embedding := []
    error := 0
    contributedToTrade := false
    lifetimeTradingPnL := 0
    experienceBuffer := []
    strategyGenes := { riskTolerance := 0, trendFollowing := 0, volatilityPreference := 0,
                       holdingBias := 0 }
    fitness := 0 }

/-- Placeholder element for out-of-range `List.getD` reads. -/
def defaultPrimeEmbedding : PrimeEmbedding :=
  { prime := 0, amplitude := 0, phase := 0 }

/-- A concrete observer, rigged only through its `id`. -/
def mkObs (i : ℕ) : Observer :=
  { defaultObserver with
      id := i
      n := 100
      proposedSize := 0.5
      reward := 0.5
      strategyGenes := { riskTolerance := 0.5, trendFollowing := 0.5,
                         volatilityPreference := 0.5, holdingBias := 0 } }

/-- Equal-fitness pair: all fields agree except `id`, and the higher id
comes first in the population list. -/
def obsA : Observer := mkObs 2

/-- See `obsA`. -/
def obsB : Observer := mkObs 1

def obsBuyW : Observer := { mkObs 10 with proposedAction := TradingAction.BUY }

def obsSellW : Observer := { mkObs 11 with proposedAction := TradingAction.SELL }

/-- A closed winning position: pnl 10, pnlPercent 2. -/
def posW : Position :=
  { type := PositionType.LONG
    entryPrice := 100
    entryTime := 0
    size := 1
    exitPrice := some 102
    exitTime := some 1
    pnl := some 10
    pnlPercent := some 2 }

/-- An epoch-metrics record carrying a validation win rate. -/
def mkValMetrics (e : ℕ) (x : ℝ) : EpochMetrics :=
  { epoch := e
    timeframe := "4h"
    winRate := 0
    totalPnL := 0
    sharpeRatio := 0
    maxDrawdown := 0
    totalTrades := 0
    avgFitness := 0
    diversityScore := 0
    validationWinRate := some x
    validationPnL := none }

/-- The synthetic validation win-rate sequence of the spec:
best at index 1, early stop must fire once index 4 is included. -/
def stopSeq : List EpochMetrics :=
  [mkValMetrics 0 0.5, mkValMetrics 1 0.6, mkValMetrics 2 0.55,
   mkValMetrics 3 0.5, mkValMetrics 4 0.52]

def efTrendingW : EcologyFeatures :=
  { pricePrediction := 101
    direction := Direction.UP
    confidence := 0.7
    volatilityEstimate := 0.02
    trendStrength := 0.7
    marketRegime := MarketRegime.trending
    phaseConsensus := 0.7 }

def mutationDrawsW : MutationDraws :=
  { gate := 0.1, coin1 := 0.3, coin2 := 0.7, coin3 := 0.3, coin4 := 0.7,
    pert1 := 0.9, pert2 := 0.1, pert3 := 0.9, pert4 := 0.1 }

def geneDrawsW : ℕ → GeneDraws := fun _ => { r1 := 0.9, r2 := 0.1, r3 := 0.9, r4 := 0.1 }

/-- One concrete trading experience. -/
def expW (executed : Bool) : TradingExperience :=
  { timestamp := 0
    marketState := { price := 100, volatility := 0.02, trend := 0, regime := "ranging" }
    action := TradingAction.HOLD
    proposedSize := 0.5
    outcome := 1
    wasExecuted := executed }

/-- Fewer than 5 experiences. -/
def obsSmallBuf : Observer := { mkObs 20 with experienceBuffer := [expW false] }

/-- Five experiences, none executed. -/
def obsNoExec : Observer :=
  { mkObs 21 with
      experienceBuffer := [expW false, expW false, expW false, expW false, expW false] }

/-! # Theorems -/

/-- C5: with `learningRate = 0` the per-prime update
`newPhase[p] = (1 - effLR) * oldPhase[p] + effLR * (round(eliteValue) tmod p)`
is the identity (`effLR = 0 * clamp(1 + pnl/1000, 0.5, 1.5) = 0`), so the
collective phase vector is unchanged after one step and after any number
of simulation steps. -/
theorem phase_vector_fixed_at_zero_learning_rate (phaseVector : ℕ → ℝ)
    (eliteN elitePnL : ℝ) (steps : List (ℝ × ℝ)) :
    updateCollectivePhase phaseVector 0 eliteN elitePnL = phaseVector ∧
    iteratePhaseUpdates phaseVector 0 steps = phaseVector := by
  have hone : ∀ (pv : ℕ → ℝ) (eN pnl : ℝ), updateCollectivePhase pv 0 eN pnl = pv := by
    intro pv eN pnl
    funext p
    simp only [updateCollectivePhase]
    split
    · ring
    · rfl
  refine ⟨hone phaseVector eliteN elitePnL, ?_⟩
  induction steps generalizing phaseVector with
  | nil => rfl
  | cons st rest ih =>
      simp only [iteratePhaseUpdates, List.foldl_cons] at ih ⊢
      rw [hone phaseVector st.1 st.2]
      exact ih phaseVector

/-- C3 counterexample: at `actual = -1` (a nonzero actual) the factor
`k = 10 / actual` is negative and the reward exceeds 1, refuting the
claimed range `(0, 1]` for every nonzero actual. -/
theorem calculateReward_range_counterexample : 1 < (calculateReward 0 (-1)).reward := by
  have h : (calculateReward 0 (-1)).reward = Real.exp 10 := by
    simp only [calculateReward]
    norm_num
  rw [h]
  exact Real.one_lt_exp_iff.mpr (by norm_num)

/-- C3 (amended: positive actual): for `actual > 0`,
`calculateReward` returns `error = |prediction - actual|` and
`reward = exp(-(10/actual) * error^2)`; the reward lies in `(0, 1]` and is
strictly decreasing in the error. -/
theorem calculateReward_spec (prediction actual : ℝ) (hpos : 0 < actual) :
    (calculateReward prediction actual).error = |prediction - actual| ∧
    (calculateReward prediction actual).reward =
      Real.exp (-(10 / actual) * |prediction - actual| ^ 2) ∧
    0 < (calculateReward prediction actual).reward ∧
    (calculateReward prediction actual).reward ≤ 1 ∧
    ∀ p1 p2 : ℝ, |p1 - actual| < |p2 - actual| →
      (calculateReward p2 actual).reward < (calculateReward p1 actual).reward := by
  have hk : 0 < 10 / actual := by positivity
  refine ⟨rfl, rfl, Real.exp_pos _, ?_, ?_⟩
  · show Real.exp (-(10 / actual) * |prediction - actual| ^ 2) ≤ 1
    rw [Real.exp_le_one_iff, neg_mul]
    exact neg_nonpos.mpr (mul_nonneg hk.le (sq_nonneg _))
  · intro p1 p2 hlt
    show Real.exp (-(10 / actual) * |p2 - actual| ^ 2) <
      Real.exp (-(10 / actual) * |p1 - actual| ^ 2)
    rw [Real.exp_lt_exp]
    have hsq : |p1 - actual| ^ 2 < |p2 - actual| ^ 2 :=
      pow_lt_pow_left₀ hlt (abs_nonneg _) (by norm_num)
    nlinarith

/-- C3 witness: at `actual = 1` the reward of the exact prediction is
positive, and a prediction with smaller error beats one with larger
error. -/
theorem calculateReward_spec_witness :
    0 < (calculateReward 0 1).reward ∧
    (calculateReward 3 1).reward < (calculateReward 1 1).reward := by
  have h := calculateReward_spec 0 1 (by norm_num)
  exact ⟨h.2.2.1, (calculateReward_spec 0 1 (by norm_num)).2.2.2.2 1 3 (by norm_num)⟩

/-- C9 counterexample: JS division never throws, so at `actual = 0` the
function does not fail — with `prediction = 5` it returns the perfectly
ordinary numeric reward `0` (via `10/0 = Infinity` and
`exp(-Infinity) = 0`). -/
theorem calculateRewardJS_zero_actual_counterexample :
    calculateRewardJS (JFloat.num 5) (JFloat.num 0) = (JFloat.num 0, JFloat.num 5) := by
  have h25 : (0 : ℝ) < |(5 : ℝ) - 0| ^ 2 := by norm_num
  simp only [calculateRewardJS, JFloat.jsub, JFloat.jabs, JFloat.jdiv, JFloat.jneg,
    JFloat.jpow2, JFloat.jmul, JFloat.jexp]
  norm_num

/-- C9 (amended): calling the reward function with `actual == 0` does not
fail: it returns reward `0` (and error `|prediction|`) whenever
`prediction ≠ 0`, and reward `NaN` when `prediction = 0`; for every
`actual ≠ 0` it returns the ordinary finite reward and error of the
real-valued reading. -/
theorem calculateRewardJS_total_spec (p a : ℝ) :
    (p ≠ 0 → calculateRewardJS (JFloat.num p) (JFloat.num 0) =
      (JFloat.num 0, JFloat.num |p|)) ∧
    calculateRewardJS (JFloat.num 0) (JFloat.num 0) = (JFloat.nan, JFloat.num 0) ∧
    (a ≠ 0 → calculateRewardJS (JFloat.num p) (JFloat.num a) =
      (JFloat.num ((calculateReward p a).reward), JFloat.num ((calculateReward p a).error))) := by
  refine ⟨?_, ?_, ?_⟩
  · intro hp
    have habs : (0 : ℝ) < |p| ^ 2 := by positivity
    have hp2 : (0 : ℝ) < p ^ 2 := by positivity
    simp only [calculateRewardJS, JFloat.jsub, JFloat.jabs, JFloat.jdiv, JFloat.jneg,
      JFloat.jpow2, JFloat.jmul, JFloat.jexp, sub_zero]
    norm_num [hp, hp2]
  · simp only [calculateRewardJS, JFloat.jsub, JFloat.jabs, JFloat.jdiv, JFloat.jneg,
      JFloat.jpow2, JFloat.jmul, JFloat.jexp, sub_zero]
    norm_num
  · intro ha
    simp only [calculateRewardJS, calculateReward, JFloat.jsub, JFloat.jabs, JFloat.jdiv,
      JFloat.jneg, JFloat.jpow2, JFloat.jmul, JFloat.jexp]
    rw [if_neg ha]

/-- C9 witness: the amended statement evaluated at `prediction = 5`,
`actual = 0` and at `prediction = 5`, `actual = 2`. -/
theorem calculateRewardJS_total_spec_witness :
    calculateRewardJS (JFloat.num 5) (JFloat.num 0) = (JFloat.num 0, JFloat.num |(5 : ℝ)|) ∧
    calculateRewardJS (JFloat.num 5) (JFloat.num 2) =
      (JFloat.num ((calculateReward 5 2).reward), JFloat.num ((calculateReward 5 2).error)) := by
  exact ⟨(calculateRewardJS_total_spec 5 0).1 (by norm_num),
    (calculateRewardJS_total_spec 5 2).2.2 (by norm_num)⟩

/-- C4 counterexample: at `n = -1` the code computes the JS remainder
`round(n) % p`, which is negative, not the nonnegative residue
`round(n) mod p`: the first amplitude is `1 - (-1)/(2-1) = 2`, while the
claimed formula gives `1 - ((-1) mod 2)/(2-1) = 0`. -/
theorem calculateEmbedding_mod_counterexample :
    ((calculateEmbedding (-1) fun _ => 0).map PrimeEmbedding.amplitude).head? ≠
      some (1 - ((round (-1 : ℝ) % 2 : ℤ) : ℝ) / ((2 : ℝ) - 1)) := by
  have hr : round (-1 : ℝ) = -1 := by
    rw [show ((-1 : ℝ)) = ((-1 : ℤ) : ℝ) by norm_num, round_intCast]
  have ht : Int.tmod (-1) 2 = -1 := by decide
  have he : ((-1 : ℤ) % 2) = 1 := by decide
  simp only [calculateEmbedding, PRIMES, List.map_cons, List.head?, hr, ht, he]
  norm_num [ht]

/-- C4 (amended: the remainder carries the sign of the dividend):
`calculateEmbedding` returns one entry per prime, with
`amplitude = 1 - r/(p-1)` and `phase = 2*pi*(r + phaseVector[p])/p` where
`r = round(n) tmod p` is the JS remainder; for `n ≥ 0` that remainder
coincides with the claimed `round(n) mod p`; the function is pure and
deterministic. -/
theorem calculateEmbedding_spec (n : ℝ) (phaseVector : ℕ → ℝ) :
    (calculateEmbedding n phaseVector).length = PRIMES.length ∧
    (∀ i, i < PRIMES.length →
      (calculateEmbedding n phaseVector).getD i defaultPrimeEmbedding =
        { prime := PRIMES.getD i 0
          amplitude := 1 - ((Int.tmod (round n) ((PRIMES.getD i 0 : ℕ) : ℤ) : ℤ) : ℝ) /
            (((PRIMES.getD i 0 : ℕ) : ℝ) - 1)
          phase := 2 * Real.pi *
            (((Int.tmod (round n) ((PRIMES.getD i 0 : ℕ) : ℤ) : ℤ) : ℝ) +
              phaseVector (PRIMES.getD i 0)) / ((PRIMES.getD i 0 : ℕ) : ℝ) }) ∧
    (0 ≤ n → ∀ p : ℕ, Int.tmod (round n) (p : ℤ) = round n % (p : ℤ)) ∧
    calculateEmbedding n phaseVector = calculateEmbedding n phaseVector := by
  refine ⟨by simp [calculateEmbedding], ?_, ?_, rfl⟩
  · intro i hi
    have hi2 : i < (calculateEmbedding n phaseVector).length := by
      simpa [calculateEmbedding] using hi
    rw [List.getD_eq_getElem?_getD, List.getElem?_eq_getElem hi2,
      List.getD_eq_getElem?_getD, List.getElem?_eq_getElem hi]
    simp only [calculateEmbedding, List.getElem_map, Option.getD_some]
  · intro hn p
    refine Int.tmod_eq_emod ?_ (by positivity)
    rw [round_eq]
    exact Int.floor_nonneg.mpr (by linarith)

/-- C4 witness: the amended statement evaluated at `n = 6` (prime 2,
remainder 0) and the mod agreement at `n = 6`, `p = 3`. -/
theorem calculateEmbedding_spec_witness :
    (calculateEmbedding 6 fun _ => 0).getD 0 defaultPrimeEmbedding =
      { prime := 2
        amplitude := 1 - ((Int.tmod (round (6 : ℝ)) ((2 : ℕ) : ℤ) : ℤ) : ℝ) / (((2 : ℕ) : ℝ) - 1)
        phase := 2 * Real.pi * (((Int.tmod (round (6 : ℝ)) ((2 : ℕ) : ℤ) : ℤ) : ℝ) + 0) /
          ((2 : ℕ) : ℝ) } ∧
    Int.tmod (round (6 : ℝ)) ((3 : ℕ) : ℤ) = round (6 : ℝ) % ((3 : ℕ) : ℤ) := by
  have h := calculateEmbedding_spec 6 (fun _ => 0)
  refine ⟨?_, h.2.2.1 (by norm_num) 3⟩
  have h0 := h.2.1 0 (by norm_num [PRIMES])
  simpa [PRIMES] using h0

/-- C1: credit assignment.  With no closed position or a HOLD action every
observer comes back with `contributedToTrade = false` and
`tradingReward = 0`; otherwise the observers whose `proposedAction`
matches the executed action — and exactly those — get
`contributedToTrade = true`, `tradingReward = sigmoid(10 * pnlPercent *
proposedSize)` and `lifetimeTradingPnL` increased by `pnl * proposedSize`,
while every other observer gets `contributedToTrade = false`,
`tradingReward = 0` and an unchanged `lifetimeTradingPnL`. -/
theorem assignTradingCredit_spec (observers : List Observer) (tradedAction : TradingAction)
    (tradeResult : Option Position) :
    (assignTradingCredit observers tradedAction tradeResult).length = observers.length ∧
    ((tradeResult = none ∨ tradedAction = TradingAction.HOLD) →
      ∀ o ∈ assignTradingCredit observers tradedAction tradeResult,
        o.contributedToTrade = false ∧ o.tradingReward = 0) ∧
    (∀ tr : Position, ∀ pnlValue pnlPercentValue : ℝ,
      tradeResult = some tr → tr.pnl = some pnlValue → tr.pnlPercent = some pnlPercentValue →
      tradedAction ≠ TradingAction.HOLD →
      ∀ i, i < observers.length →
        ((observers.getD i defaultObserver).proposedAction = tradedAction →
          ((assignTradingCredit observers tradedAction tradeResult).getD i
              defaultObserver).contributedToTrade = true ∧
          ((assignTradingCredit observers tradedAction tradeResult).getD i
              defaultObserver).tradingReward =
            sigmoid (10 * pnlPercentValue * (observers.getD i defaultObserver).proposedSize) ∧
          ((assignTradingCredit observers tradedAction tradeResult).getD i
              defaultObserver).lifetimeTradingPnL =
            (observers.getD i defaultObserver).lifetimeTradingPnL +
              pnlValue * (observers.getD i defaultObserver).proposedSize) ∧
        ((observers.getD i defaultObserver).proposedAction ≠ tradedAction →
          ((assignTradingCredit observers tradedAction tradeResult).getD i
              defaultObserver).contributedToTrade = false ∧
          ((assignTradingCredit observers tradedAction tradeResult).getD i
              defaultObserver).tradingReward = 0 ∧
          ((assignTradingCredit observers tradedAction tradeResult).getD i
              defaultObserver).lifetimeTradingPnL =
            (observers.getD i defaultObserver).lifetimeTradingPnL)) := by
  refine ⟨?_, ?_, ?_⟩
  · cases tradeResult with
    | none => simp [assignTradingCredit]
    | some tr =>
        by_cases h : tradedAction = TradingAction.HOLD <;>
          simp [assignTradingCredit, h]
  · rintro (rfl | rfl) o ho
    · simp only [assignTradingCredit] at ho
      obtain ⟨x, _, rfl⟩ := List.mem_map.1 ho
      exact ⟨rfl, rfl⟩
    · cases tradeResult with
      | none =>
          simp only [assignTradingCredit] at ho
          obtain ⟨x, _, rfl⟩ := List.mem_map.1 ho
          exact ⟨rfl, rfl⟩
      | some tr =>
          simp only [assignTradingCredit, if_pos rfl] at ho
          obtain ⟨x, _, rfl⟩ := List.mem_map.1 ho
          exact ⟨rfl, rfl⟩
  · rintro tr pnlValue pnlPercentValue rfl hpnl hpct hhold i hi
    have hmap : assignTradingCredit observers tradedAction (some tr) =
        observers.map fun obs =>
          if obs.proposedAction = tradedAction then
            { obs with
                contributedToTrade := true
                tradingReward := 1 / (1 + Real.exp (-(tr.pnlPercent.getD 0 * obs.proposedSize)
                  * 10))
                lifetimeTradingPnL := obs.lifetimeTradingPnL +
                  tr.pnl.getD 0 * obs.proposedSize }
          else { obs with contributedToTrade := false, tradingReward := 0 } := by
      simp only [assignTradingCredit, if_neg hhold]
    have hi2 : i < (assignTradingCredit observers tradedAction (some tr)).length := by
      rw [hmap, List.length_map]; exact hi
    have hobs : observers.getD i defaultObserver = observers[i] := by
      rw [List.getD_eq_getElem?_getD, List.getElem?_eq_getElem hi, Option.getD_some]
    have hres : (assignTradingCredit observers tradedAction (some tr)).getD i defaultObserver =
        (assignTradingCredit observers tradedAction (some tr))[i] := by
      rw [List.getD_eq_getElem?_getD, List.getElem?_eq_getElem hi2, Option.getD_some]
    have hval : (assignTradingCredit observers tradedAction (some tr))[i] =
        if observers[i].proposedAction = tradedAction then
          { observers[i] with
              contributedToTrade := true
              tradingReward := 1 / (1 + Real.exp (-(tr.pnlPercent.getD 0 *
                observers[i].proposedSize) * 10))
              lifetimeTradingPnL := observers[i].lifetimeTradingPnL +
                tr.pnl.getD 0 * observers[i].proposedSize }
        else { observers[i] with contributedToTrade := false, tradingReward := 0 } := by
      simp only [hmap, List.getElem_map]
    constructor
    · intro hmatch
      rw [hobs] at hmatch
      rw [hres, hval, if_pos hmatch, hobs]
      refine ⟨rfl, ?_, by rw [hpnl, Option.getD_some]⟩
      rw [hpct, Option.getD_some, sigmoid]
      have harg : -(pnlPercentValue * observers[i].proposedSize) * 10 =
          -(10 * pnlPercentValue * observers[i].proposedSize) := by ring
      rw [harg]
    · intro hmatch
      rw [hobs] at hmatch
      rw [hres, hval, if_neg hmatch, hobs]
      exact ⟨rfl, rfl, rfl⟩

/-- C1 witness: a concrete two-observer population after a closed winning
BUY trade — the BUY proposer is credited, the SELL proposer is not. -/
theorem assignTradingCredit_spec_witness :
    ((assignTradingCredit [obsBuyW, obsSellW] TradingAction.BUY (some posW)).getD 0
        defaultObserver).contributedToTrade = true ∧
    ((assignTradingCredit [obsBuyW, obsSellW] TradingAction.BUY (some posW)).getD 0
        defaultObserver).tradingReward =
      sigmoid (10 * 2 * ([obsBuyW, obsSellW].getD 0 defaultObserver).proposedSize) ∧
    ((assignTradingCredit [obsBuyW, obsSellW] TradingAction.BUY (some posW)).getD 1
        defaultObserver).contributedToTrade = false := by
  have h := (assignTradingCredit_spec [obsBuyW, obsSellW] TradingAction.BUY (some posW)).2.2
    posW 10 2 rfl rfl rfl (by simp)
  have h0 := (h 0 (by norm_num)).1 (by simp [obsBuyW, mkObs])
  have h1 := (h 1 (by norm_num)).2 (by simp [obsSellW, mkObs])
  exact ⟨h0.1, h0.2.1, h1.1⟩

/-- C6: with ecology features present, the signal's confidence is
`directionAccuracyPct/100`; the required confidence is 0.60, raised by
0.10 in a VOLATILE regime; a RANGING regime with `phaseConsensus < 0.5`
forces HOLD; otherwise the action is BUY (resp. SELL) when the confidence
reaches the threshold and the last direction is UP (resp. DOWN), and HOLD
when the confidence falls short. -/
theorem generateTradingSignal_spec (predictedPrice currentPrice directionAccuracy : ℝ)
    (lastPrediction : Direction) (timestamp : ℝ) (ef : EcologyFeatures) :
    (generateTradingSignal predictedPrice currentPrice directionAccuracy lastPrediction
        timestamp (some ef) DEFAULT_CONFIG).confidence = directionAccuracy / 100 ∧
    (ef.marketRegime = MarketRegime.ranging → ef.phaseConsensus < 0.5 →
      (generateTradingSignal predictedPrice currentPrice directionAccuracy lastPrediction
          timestamp (some ef) DEFAULT_CONFIG).action = TradingAction.HOLD) ∧
    (¬(ef.marketRegime = MarketRegime.ranging ∧ ef.phaseConsensus < 0.5) →
      (0.60 + (if ef.marketRegime = MarketRegime.volatile then (0.1 : ℝ) else 0) ≤
          directionAccuracy / 100 →
        (generateTradingSignal predictedPrice currentPrice directionAccuracy lastPrediction
            timestamp (some ef) DEFAULT_CONFIG).action =
          (match lastPrediction with
            | Direction.UP => TradingAction.BUY
            | Direction.DOWN => TradingAction.SELL)) ∧
      (directionAccuracy / 100 <
          0.60 + (if ef.marketRegime = MarketRegime.volatile then (0.1 : ℝ) else 0) →
        (generateTradingSignal predictedPrice currentPrice directionAccuracy lastPrediction
            timestamp (some ef) DEFAULT_CONFIG).action = TradingAction.HOLD)) := by
  refine ⟨rfl, ?_, ?_⟩
  · intro h1 h2
    simp [generateTradingSignal, h1, h2]
  · intro hnr
    constructor
    · intro hge
      have hc : DEFAULT_CONFIG.minConfidence +
          (if ef.marketRegime = MarketRegime.volatile then (0.1 : ℝ) else 0) ≤
            directionAccuracy / 100 ∧
          ¬(ef.marketRegime = MarketRegime.ranging ∧ ef.phaseConsensus < 0.5) := ⟨hge, hnr⟩
      simp only [generateTradingSignal, if_pos hc]
    · intro hlt
      have hc : ¬(DEFAULT_CONFIG.minConfidence +
          (if ef.marketRegime = MarketRegime.volatile then (0.1 : ℝ) else 0) ≤
            directionAccuracy / 100 ∧
          ¬(ef.marketRegime = MarketRegime.ranging ∧ ef.phaseConsensus < 0.5)) := by
        rintro ⟨hge, -⟩
        exact absurd hge (not_le.mpr hlt)
      simp only [generateTradingSignal, if_neg hc]

/-- C6 witness: trending regime, 70% accuracy, last direction UP: the
threshold stays at 0.60 and the signal is BUY. -/
theorem generateTradingSignal_spec_witness :
    (generateTradingSignal 101 100 70 Direction.UP 0 (some efTrendingW)
        DEFAULT_CONFIG).action = TradingAction.BUY := by
  have h := (generateTradingSignal_spec 101 100 70 Direction.UP 0 efTrendingW).2.2
    (by simp [efTrendingW])
  have hth : (0.60 : ℝ) +
      (if efTrendingW.marketRegime = MarketRegime.volatile then (0.1 : ℝ) else 0) ≤
      70 / 100 := by
    have hreg : efTrendingW.marketRegime = MarketRegime.trending := rfl
    rw [hreg, if_neg (by simp : ¬(MarketRegime.trending = MarketRegime.volatile))]
    norm_num
  simpa using h.1 hth

/-- C10: the adaptive mutation rate is exactly `1.5 * base` for an
inexperienced observer (buffer shorter than 5), exactly `base` when the
last 20 experiences contain no executed trade, and otherwise
`base * m` with the multiplier `m` clamped to `[0.3, 3]`; hence the result
stays in `[0.3 * base, 3 * base]` whenever the buffer holds at least 5
entries, and is never negative for a nonnegative base rate. -/
theorem calculateAdaptiveMutationRate_spec (obs : Observer) (b : ℝ) :
    (obs.experienceBuffer.length < 5 → calculateAdaptiveMutationRate obs b 20 = b * 1.5) ∧
    (5 ≤ obs.experienceBuffer.length →
      ((obs.experienceBuffer.drop (obs.experienceBuffer.length - 20)).filter
          (fun exp => exp.wasExecuted)).length = 0 →
      calculateAdaptiveMutationRate obs b 20 = b) ∧
    (5 ≤ obs.experienceBuffer.length →
      ((obs.experienceBuffer.drop (obs.experienceBuffer.length - 20)).filter
          (fun exp => exp.wasExecuted)).length ≠ 0 →
      ∃ m : ℝ, 0.3 ≤ m ∧ m ≤ 3 ∧ calculateAdaptiveMutationRate obs b 20 = b * m) ∧
    (0 ≤ b → 5 ≤ obs.experienceBuffer.length →
      0.3 * b ≤ calculateAdaptiveMutationRate obs b 20 ∧
        calculateAdaptiveMutationRate obs b 20 ≤ 3 * b) ∧
    (0 ≤ b → 0 ≤ calculateAdaptiveMutationRate obs b 20) := by
  have hA : obs.experienceBuffer.length < 5 →
      calculateAdaptiveMutationRate obs b 20 = b * 1.5 := by
    intro h
    simp [calculateAdaptiveMutationRate, h]
  have hB : ¬ obs.experienceBuffer.length < 5 →
      ((obs.experienceBuffer.drop (obs.experienceBuffer.length - 20)).filter
          (fun exp => exp.wasExecuted)).length = 0 →
      calculateAdaptiveMutationRate obs b 20 = b := by
    intro h5 h0
    simp only [calculateAdaptiveMutationRate]
    rw [if_neg h5, if_neg (by norm_num : ¬(20 : ℕ) = 0), if_pos h0]
  have hC : ¬ obs.experienceBuffer.length < 5 →
      ((obs.experienceBuffer.drop (obs.experienceBuffer.length - 20)).filter
          (fun exp => exp.wasExecuted)).length ≠ 0 →
      ∃ m : ℝ, 0.3 ≤ m ∧ m ≤ 3 ∧ calculateAdaptiveMutationRate obs b 20 = b * m := by
    intro h5 hne
    simp only [calculateAdaptiveMutationRate]
    rw [if_neg h5, if_neg (by norm_num : ¬(20 : ℕ) = 0), if_neg hne]
    refine ⟨_, le_max_left _ _,
      max_le (by norm_num) ((min_le_left _ _).trans (by norm_num)), rfl⟩
  refine ⟨hA, fun h5 => hB (not_lt.mpr h5), fun h5 => hC (not_lt.mpr h5), ?_, ?_⟩
  · intro hb h5
    by_cases h0 : ((obs.experienceBuffer.drop (obs.experienceBuffer.length - 20)).filter
        (fun exp => exp.wasExecuted)).length = 0
    · rw [hB (not_lt.mpr h5) h0]
      constructor <;> nlinarith
    · obtain ⟨m, hm1, hm2, hm3⟩ := hC (not_lt.mpr h5) h0
      rw [hm3]
      constructor <;> nlinarith
  · intro hb
    by_cases h5 : obs.experienceBuffer.length < 5
    · rw [hA h5]; nlinarith
    · by_cases h0 : ((obs.experienceBuffer.drop (obs.experienceBuffer.length - 20)).filter
          (fun exp => exp.wasExecuted)).length = 0
      · rw [hB h5 h0]; exact hb
      · obtain ⟨m, hm1, hm2, hm3⟩ := hC h5 h0
        rw [hm3]; nlinarith

/-- C10 witness: a 1-entry buffer gives `0.2 * 1.5`, and a 5-entry buffer
with no executed trades gives the base rate back, inside the stated
bounds. -/
theorem calculateAdaptiveMutationRate_spec_witness :
    calculateAdaptiveMutationRate obsSmallBuf 0.2 20 = 0.2 * 1.5 ∧
    calculateAdaptiveMutationRate obsNoExec 0.2 20 = 0.2 ∧
    0.3 * 0.2 ≤ calculateAdaptiveMutationRate obsNoExec 0.2 20 := by
  have h1 := (calculateAdaptiveMutationRate_spec obsSmallBuf 0.2).1
    (by simp [obsSmallBuf, mkObs])
  have h2 := (calculateAdaptiveMutationRate_spec obsNoExec 0.2).2.1
    (by simp [obsNoExec, mkObs])
    (by simp [obsNoExec, mkObs, defaultObserver, expW, List.filter])
  have h3 := ((calculateAdaptiveMutationRate_spec obsNoExec 0.2).2.2.2.1
    (by norm_num) (by simp [obsNoExec, mkObs])).1
  exact ⟨h1, h2, h3⟩

/-- `clamp(x, 0, 1)` is nonnegative. -/
theorem clamp01_nonneg (x : ℝ) : 0 ≤ max 0 (min 1 x) := le_max_left 0 _

/-- `clamp(x, 0, 1)` is at most 1. -/
theorem clamp01_le_one (x : ℝ) : max 0 (min 1 x) ≤ 1 := max_le zero_le_one (min_le_left _ _)

/-- `clamp(x, -1, 1)` is at least -1. -/
theorem clamppm1_lower (x : ℝ) : -1 ≤ max (-1) (min 1 x) := le_max_left _ _

/-- `clamp(x, -1, 1)` is at most 1. -/
theorem clamppm1_le_one (x : ℝ) : max (-1) (min 1 x) ≤ 1 :=
  max_le (by norm_num) (min_le_left _ _)

/-- A point moved a fraction `s ∈ [0,1]` of the way toward a target stays
inside any interval containing both endpoints. -/
theorem convex_combo_mem (lo hi g e s : ℝ) (hg1 : lo ≤ g) (hg2 : g ≤ hi) (he1 : lo ≤ e)
    (he2 : e ≤ hi) (hs1 : 0 ≤ s) (hs2 : s ≤ 1) :
    lo ≤ g + (e - g) * s ∧ g + (e - g) * s ≤ hi := by
  constructor <;> nlinarith

/-- One optional clamped update of `riskTolerance` preserves the gene
ranges. -/
theorem mutStep_rt (g : StrategyGenes) (c r s : ℝ) (h : genesInRange g) :
    genesInRange (if c < 0.5 then
      { g with riskTolerance := max 0 (min 1 (g.riskTolerance + (r - 0.5) * s)) } else g) := by
  obtain ⟨h1, h2, h3, h4, h5, h6, h7, h8⟩ := h
  split
  · exact ⟨clamp01_nonneg _, clamp01_le_one _, h3, h4, h5, h6, h7, h8⟩
  · exact ⟨h1, h2, h3, h4, h5, h6, h7, h8⟩

/-- One optional clamped update of `trendFollowing` preserves the gene
ranges. -/
theorem mutStep_tf (g : StrategyGenes) (c r s : ℝ) (h : genesInRange g) :
    genesInRange (if c < 0.5 then
      { g with trendFollowing := max 0 (min 1 (g.trendFollowing + (r - 0.5) * s)) } else g) := by
  obtain ⟨h1, h2, h3, h4, h5, h6, h7, h8⟩ := h
  split
  · exact ⟨h1, h2, clamp01_nonneg _, clamp01_le_one _, h5, h6, h7, h8⟩
  · exact ⟨h1, h2, h3, h4, h5, h6, h7, h8⟩

/-- One optional clamped update of `volatilityPreference` preserves the
gene ranges. -/
theorem mutStep_vp (g : StrategyGenes) (c r s : ℝ) (h : genesInRange g) :
    genesInRange (if c < 0.5 then
      { g with
          volatilityPreference := max 0 (min 1 (g.volatilityPreference + (r - 0.5) * s)) }
    else g) := by
  obtain ⟨h1, h2, h3, h4, h5, h6, h7, h8⟩ := h
  split
  · exact ⟨h1, h2, h3, h4, clamp01_nonneg _, clamp01_le_one _, h7, h8⟩
  · exact ⟨h1, h2, h3, h4, h5, h6, h7, h8⟩

/-- One optional clamped update of `holdingBias` preserves the gene
ranges. -/
theorem mutStep_hb (g : StrategyGenes) (c r s : ℝ) (h : genesInRange g) :
    genesInRange (if c < 0.5 then
      { g with
          holdingBias := max (-1) (min 1 (g.holdingBias + (r - 0.5) * s * 2)) }
    else g) := by
  obtain ⟨h1, h2, h3, h4, h5, h6, h7, h8⟩ := h
  split
  · exact ⟨h1, h2, h3, h4, h5, h6, clamppm1_lower _, clamppm1_le_one _⟩
  · exact ⟨h1, h2, h3, h4, h5, h6, h7, h8⟩

/-- C8: every gene-modifying operation — random gene mutation, evolution
toward an elite (with an evolution fraction kept in `[0,1]` by
`0 ≤ learningRate ≤ 1`), and the diversity perturbation — keeps
`riskTolerance`, `trendFollowing`, `volatilityPreference` in `[0,1]` and
`holdingBias` in `[-1,1]`, for any values of the random draws. -/
theorem strategy_genes_stay_in_range :
    (∀ (obs : Observer) (mutationRate mutationStrength : ℝ) (d : MutationDraws),
      genesInRange obs.strategyGenes →
      genesInRange (mutateStrategyGenes obs mutationRate mutationStrength d).strategyGenes) ∧
    (∀ (obs elite : Observer) (eliteFitness learningRate : ℝ),
      genesInRange obs.strategyGenes → genesInRange elite.strategyGenes →
      0 ≤ learningRate → learningRate ≤ 1 →
      genesInRange (evolveObserver obs elite eliteFitness learningRate).strategyGenes) ∧
    (∀ (observers : List Observer) (minDiversity perturbationStrength : ℝ)
        (draws : ℕ → GeneDraws),
      (∀ o ∈ observers, genesInRange o.strategyGenes) →
      ∀ o ∈ maintainDiversity observers minDiversity perturbationStrength draws,
        genesInRange o.strategyGenes) := by
  refine ⟨?_, ?_, ?_⟩
  · intro obs mutationRate mutationStrength d h
    simp only [mutateStrategyGenes]
    split
    · exact h
    · exact mutStep_hb _ _ _ _ (mutStep_vp _ _ _ _ (mutStep_tf _ _ _ _ (mutStep_rt _ _ _ _ h)))
  · intro obs elite eliteFitness learningRate hg he hlr0 hlr1
    simp only [evolveObserver]
    split
    · exact hg
    · next hlt =>
        have hgap : 0 < eliteFitness - calculateFitness obs := by
          have := not_le.mp hlt
          linarith
        have hm0 : 0 ≤ min 1 ((eliteFitness - calculateFitness obs) * 2) :=
          le_min zero_le_one (by nlinarith)
        have hm1 : min 1 ((eliteFitness - calculateFitness obs) * 2) ≤ 1 := min_le_left _ _
        have hs1 : 0 ≤ min 1 ((eliteFitness - calculateFitness obs) * 2) * learningRate :=
          mul_nonneg hm0 hlr0
        have hs2 : min 1 ((eliteFitness - calculateFitness obs) * 2) * learningRate ≤ 1 := by
          nlinarith
        obtain ⟨h1, h2, h3, h4, h5, h6, h7, h8⟩ := hg
        obtain ⟨e1, e2, e3, e4, e5, e6, e7, e8⟩ := he
        exact ⟨(convex_combo_mem 0 1 _ _ _ h1 h2 e1 e2 hs1 hs2).1,
          (convex_combo_mem 0 1 _ _ _ h1 h2 e1 e2 hs1 hs2).2,
          (convex_combo_mem 0 1 _ _ _ h3 h4 e3 e4 hs1 hs2).1,
          (convex_combo_mem 0 1 _ _ _ h3 h4 e3 e4 hs1 hs2).2,
          (convex_combo_mem 0 1 _ _ _ h5 h6 e5 e6 hs1 hs2).1,
          (convex_combo_mem 0 1 _ _ _ h5 h6 e5 e6 hs1 hs2).2,
          (convex_combo_mem (-1) 1 _ _ _ h7 h8 e7 e8 hs1 hs2).1,
          (convex_combo_mem (-1) 1 _ _ _ h7 h8 e7 e8 hs1 hs2).2⟩
  · intro observers minDiversity perturbationStrength draws hall o ho
    simp only [maintainDiversity] at ho
    split at ho
    · exact hall o ho
    · obtain ⟨x, hx, rfl⟩ := List.mem_map.1 ho
      split <;> split
      · exact ⟨clamp01_nonneg _, clamp01_le_one _, clamp01_nonneg _, clamp01_le_one _,
          clamp01_nonneg _, clamp01_le_one _, clamppm1_lower _, clamppm1_le_one _⟩
      · exact hall x hx
      · exact ⟨clamp01_nonneg _, clamp01_le_one _, clamp01_nonneg _, clamp01_le_one _,
          clamp01_nonneg _, clamp01_le_one _, clamppm1_lower _, clamppm1_le_one _⟩
      · exact hall x hx

/-- C8 witness: the three operations applied to concrete in-range
observers give in-range genes. -/
theorem strategy_genes_stay_in_range_witness :
    genesInRange (mutateStrategyGenes (mkObs 0) 0.2 0.1 mutationDrawsW).strategyGenes ∧
    genesInRange (evolveObserver (mkObs 0) (mkObs 1) 0.9 0.05).strategyGenes ∧
    genesInRange (((maintainDiversity [mkObs 0, mkObs 1] 0.3 0.2 geneDrawsW).getD 0
      defaultObserver).strategyGenes) := by
  have hg : ∀ i : ℕ, genesInRange (mkObs i).strategyGenes := by
    intro i
    refine ⟨by norm_num [mkObs], by norm_num [mkObs], by norm_num [mkObs],
      by norm_num [mkObs], by norm_num [mkObs], by norm_num [mkObs],
      by norm_num [mkObs], by norm_num [mkObs]⟩
  have h := strategy_genes_stay_in_range
  have hall : ∀ o ∈ [mkObs 0, mkObs 1], genesInRange o.strategyGenes := by
    intro o ho
    rcases List.mem_pair.mp ho with rfl | rfl
    · exact hg 0
    · exact hg 1
  have hlen : 0 < (maintainDiversity [mkObs 0, mkObs 1] 0.3 0.2 geneDrawsW).length := by
    simp only [maintainDiversity]
    split
    · norm_num
    · simp
  have hmem : (maintainDiversity [mkObs 0, mkObs 1] 0.3 0.2 geneDrawsW).getD 0
      defaultObserver ∈ maintainDiversity [mkObs 0, mkObs 1] 0.3 0.2 geneDrawsW := by
    rw [List.getD_eq_getElem?_getD, List.getElem?_eq_getElem hlen, Option.getD_some]
    exact List.getElem_mem hlen
  exact ⟨h.1 _ 0.2 0.1 mutationDrawsW (hg 0),
    h.2.1 _ _ 0.9 0.05 (hg 0) (hg 1) (by norm_num) (by norm_num),
    h.2.2 _ 0.3 0.2 geneDrawsW hall _ hmem⟩

/-- Inserting adds one element. -/
theorem length_insertDescBy (key : Observer → ℝ) (x : Observer) (l : List Observer) :
    (insertDescBy key x l).length = l.length + 1 := by
  induction l with
  | nil => rfl
  | cons y ys ih =>
      simp only [insertDescBy]
      split
      · simp
      · simp [ih]

/-- The stable sort preserves length. -/
theorem length_sortDescBy (key : Observer → ℝ) (l : List Observer) :
    (sortDescBy key l).length = l.length := by
  induction l with
  | nil => rfl
  | cons y ys ih =>
      simp only [sortDescBy, List.foldr_cons] at ih ⊢
      rw [length_insertDescBy, ih]
      rfl

/-- Membership in an insertion. -/
theorem mem_insertDescBy (key : Observer → ℝ) (x z : Observer) (l : List Observer) :
    z ∈ insertDescBy key x l ↔ z = x ∨ z ∈ l := by
  induction l with
  | nil => simp [insertDescBy]
  | cons y ys ih =>
      simp only [insertDescBy]
      split
      · simp [or_comm, or_assoc, or_left_comm]
      · simp only [List.mem_cons, ih]
        tauto

/-- Inserting into a descending list keeps it descending. -/
theorem sorted_insertDescBy (key : Observer → ℝ) (x : Observer) (l : List Observer)
    (h : l.Pairwise fun a b => key b ≤ key a) :
    (insertDescBy key x l).Pairwise fun a b => key b ≤ key a := by
  induction l with
  | nil => simp [insertDescBy]
  | cons y ys ih =>
      obtain ⟨hy, hys⟩ := List.pairwise_cons.mp h
      simp only [insertDescBy]
      split
      · next hxy =>
          refine List.pairwise_cons.mpr ⟨?_, h⟩
          intro z hz
          rcases List.mem_cons.mp hz with rfl | hz2
          · exact hxy
          · exact (hy z hz2).trans hxy
      · next hxy =>
          have hx : key x < key y := not_le.mp hxy
          refine List.pairwise_cons.mpr ⟨?_, ih hys⟩
          intro z hz
          rcases (mem_insertDescBy key x z ys).mp hz with rfl | hz2
          · exact hx.le
          · exact hy z hz2

/-- The stable sort yields a list with non-increasing keys. -/
theorem sorted_sortDescBy (key : Observer → ℝ) (l : List Observer) :
    (sortDescBy key l).Pairwise fun a b => key b ≤ key a := by
  induction l with
  | nil => simp [sortDescBy]
  | cons y ys ih =>
      simp only [sortDescBy, List.foldr_cons] at ih ⊢
      exact sorted_insertDescBy key y _ ih

/-- Stability, one step: on a predicate that pins the key (all its
members share one key value), inserting either prepends the new element
to the filtered list or leaves the filtered list unchanged — it is never
spliced between old elements of equal key. -/
theorem filter_insertDescBy (key : Observer → ℝ) (x : Observer) (l : List Observer)
    (p : Observer → Bool) (hp : ∀ a b, p a = true → p b = true → key a = key b) :
    (insertDescBy key x l).filter p = if p x then x :: l.filter p else l.filter p := by
  induction l with
  | nil =>
      by_cases hpx : p x = true <;> simp [insertDescBy, List.filter_cons, hpx]
  | cons y ys ih =>
      simp only [insertDescBy]
      split
      · next hxy =>
          by_cases hpx : p x = true <;> simp [List.filter_cons, hpx]
      · next hxy =>
          have hky : key x < key y := not_le.mp hxy
          by_cases hpx : p x = true
          · have hpy : ¬ p y = true := fun hpy =>
              absurd (hp y x hpy hpx) (ne_of_gt hky)
            simp [List.filter_cons, hpx, hpy, ih]
          · simp [List.filter_cons, hpx, ih]

/-- Stability: the stable sort leaves every equal-key class in its
original input order. -/
theorem filter_sortDescBy (key : Observer → ℝ) (l : List Observer)
    (p : Observer → Bool) (hp : ∀ a b, p a = true → p b = true → key a = key b) :
    (sortDescBy key l).filter p = l.filter p := by
  induction l with
  | nil => rfl
  | cons y ys ih =>
      simp only [sortDescBy, List.foldr_cons] at ih ⊢
      rw [filter_insertDescBy key y _ p hp, ih]
      by_cases hpy : p y = true <;> simp [List.filter_cons, hpy]

/-- C2 counterexample: two observers that differ only in their `id`
(hence have equal fitness), listed with the higher id first, come out of
`selectEliteEnsemble` still with the higher id first — the stable sort
keeps the input order on ties instead of ranking the lower id first. -/
theorem selectEliteEnsemble_tiebreak_counterexample :
    calculateFitness obsA = calculateFitness obsB ∧
    obsB.id < obsA.id ∧
    (selectEliteEnsemble [obsA, obsB] 3).map (fun o => o.id) = [2, 1] := by
  refine ⟨rfl, by norm_num [obsA, obsB, mkObs, defaultObserver], ?_⟩
  simp only [selectEliteEnsemble, sortDescBy, List.map_cons, List.map_nil, List.foldr_cons,
    List.foldr_nil, insertDescBy]
  have hBA : calculateFitness obsB ≤ calculateFitness obsA := le_of_eq (by rfl)
  rw [if_pos hBA]
  simp [obsA, obsB, mkObs, defaultObserver]

/-- C2 (amended: ties keep the input order, not lower-id-first):
`selectEliteEnsemble` returns exactly `min(3, populationSize)` observers
sorted by non-increasing fitness, and observers of equal fitness appear
in the order of the input list (the ES2019-stable `Array.prototype.sort`),
not ordered by id. -/
theorem selectEliteEnsemble_spec (observers : List Observer) :
    (selectEliteEnsemble observers 3).length = min 3 observers.length ∧
    (selectEliteEnsemble observers 3).Pairwise (fun a b => b.fitness ≤ a.fitness) ∧
    ∀ c : ℝ, (selectEliteEnsemble observers 3).filter (fun o => o.fitness = c) <+:
      (observers.map fun obs => { obs with fitness := calculateFitness obs }).filter
        (fun o => o.fitness = c) := by
  refine ⟨?_, ?_, ?_⟩
  · simp only [selectEliteEnsemble]
    rw [List.length_take, length_sortDescBy, List.length_map]
  · have hs := sorted_sortDescBy (fun o => o.fitness)
      (observers.map fun obs => { obs with fitness := calculateFitness obs })
    exact hs.sublist (List.take_sublist _ _)
  · intro c
    have hp : ∀ a b : Observer, (decide (a.fitness = c)) = true →
        (decide (b.fitness = c)) = true → a.fitness = b.fitness := by
      intro a b ha hb
      rw [decide_eq_true_eq] at ha hb
      rw [ha, hb]
    have hpre : (selectEliteEnsemble observers 3).filter (fun o => decide (o.fitness = c)) <+:
        (sortDescBy (fun o => o.fitness)
          (observers.map fun obs => { obs with fitness := calculateFitness obs })).filter
          (fun o => decide (o.fitness = c)) :=
      (List.take_prefix _ _).filter _
    rw [filter_sortDescBy _ _ _ hp] at hpre
    exact hpre

/-- A left max-fold either returns its seed or an element of the list. -/
theorem foldl_max_mem (a : ℝ) (l : List ℝ) : l.foldl max a = a ∨ l.foldl max a ∈ l := by
  induction l generalizing a with
  | nil => exact Or.inl rfl
  | cons y ys ih =>
      simp only [List.foldl_cons]
      rcases ih (max a y) with h | h
      · rcases le_total a y with hy | hy
        · right
          rw [h, max_eq_right hy]
          exact List.mem_cons_self y ys
        · left
          rw [h, max_eq_left hy]
      · exact Or.inr (List.mem_cons_of_mem y h)

/-- A left max-fold bounds its seed and every element. -/
theorem le_foldl_max (a : ℝ) (l : List ℝ) :
    a ≤ l.foldl max a ∧ ∀ x ∈ l, x ≤ l.foldl max a := by
  induction l generalizing a with
  | nil => exact ⟨le_refl a, by simp⟩
  | cons y ys ih =>
      obtain ⟨h1, h2⟩ := ih (max a y)
      simp only [List.foldl_cons]
      refine ⟨(le_max_left a y).trans h1, ?_⟩
      intro x hx
      rcases List.mem_cons.mp hx with rfl | hx2
      · exact (le_max_right a x).trans h1
      · exact h2 x hx2

/-- `Math.max` over a non-empty spread returns one of the values. -/
theorem jsMaxList_mem (l : List ℝ) (h : l ≠ []) : jsMaxList l ∈ l := by
  cases l with
  | nil => exact absurd rfl h
  | cons x xs =>
      simp only [jsMaxList]
      rcases foldl_max_mem x xs with h2 | h2
      · rw [h2]
        exact List.mem_cons_self x xs
      · exact List.mem_cons_of_mem x h2

/-- `Math.max` over a spread dominates every value. -/
theorem le_jsMaxList (l : List ℝ) (x : ℝ) (hx : x ∈ l) : x ≤ jsMaxList l := by
  cases l with
  | nil => simp at hx
  | cons y ys =>
      simp only [jsMaxList]
      rcases List.mem_cons.mp hx with rfl | hx2
      · exact (le_foldl_max x ys).1
      · exact (le_foldl_max y ys).2 x hx2

/-- Core of the early-stopping check, over the validation-bearing records:
`length - 1 - findIndex(best)` reaching the patience of 3 is equivalent to
the first index attaining the maximum validation win rate sitting at
least 3 entries before the end of the list. -/
theorem stop_core (msF : List EpochMetrics)
    (hall : ∀ m ∈ msF, m.validationWinRate.isSome = true) (h3 : 3 ≤ msF.length) :
    3 ≤ msF.length - 1 -
        msF.findIdx (fun m => m.validationWinRate =
          some (jsMaxList (msF.map fun m => m.validationWinRate.getD 0))) ↔
      ∃ i, i < (msF.map fun m => m.validationWinRate.getD 0).length ∧
        (∀ j, j < (msF.map fun m => m.validationWinRate.getD 0).length →
          (msF.map fun m => m.validationWinRate.getD 0).getD j 0 ≤
            (msF.map fun m => m.validationWinRate.getD 0).getD i 0) ∧
        (∀ j, j < i →
          (msF.map fun m => m.validationWinRate.getD 0).getD j 0 <
            (msF.map fun m => m.validationWinRate.getD 0).getD i 0) ∧
        i + 4 ≤ (msF.map fun m => m.validationWinRate.getD 0).length := by
  set v := msF.map fun m => m.validationWinRate.getD 0 with hv
  set best := jsMaxList v with hbestdef
  have hlenv : v.length = msF.length := hv ▸ List.length_map _ _
  have hvne : v ≠ [] := by
    intro h
    rw [h] at hlenv
    simp only [List.length_nil] at hlenv
    omega
  have hsome : ∀ o : Option ℝ, o.isSome = true → o = some (o.getD 0) := by
    intro o ho
    cases o with
    | none => simp at ho
    | some x => rfl
  have hgd : ∀ j (hj : j < msF.length), v.getD j 0 = msF[j].validationWinRate.getD 0 := by
    intro j hj
    have hj2 : j < v.length := by rw [hlenv]; exact hj
    rw [List.getD_eq_getElem?_getD, List.getElem?_eq_getElem hj2]
    simp only [Option.getD_some, hv, List.getElem_map]
  have hgdmem : ∀ j (hj : j < msF.length), v.getD j 0 ∈ v := by
    intro j hj
    have hj2 : j < v.length := by rw [hlenv]; exact hj
    rw [List.getD_eq_getElem?_getD, List.getElem?_eq_getElem hj2]
    simp only [Option.getD_some]
    exact List.getElem_mem hj2
  have hmem : best ∈ v := jsMaxList_mem v hvne
  have hle : ∀ x ∈ v, x ≤ best := fun x hx => le_jsMaxList v x hx
  have hklt : msF.findIdx (fun m => m.validationWinRate = some best) < msF.length := by
    apply List.findIdx_lt_length_of_exists
    obtain ⟨m, hm, hfm⟩ := List.mem_map.1 (hv ▸ hmem)
    refine ⟨m, hm, ?_⟩
    rw [decide_eq_true_eq, hsome _ (hall m hm)]
    exact congrArg some hfm
  have hkval : msF[msF.findIdx (fun m => m.validationWinRate = some best)].validationWinRate
      = some best := by
    have h := @List.findIdx_getElem _ (fun m => decide (m.validationWinRate = some best))
      msF hklt
    simpa using h
  have hKv : v.getD (msF.findIdx (fun m => m.validationWinRate = some best)) 0 = best := by
    rw [hgd _ hklt, hkval]
    rfl
  have hkfirst : ∀ j (hjl : j < msF.length),
      j < msF.findIdx (fun m => m.validationWinRate = some best) →
      ¬ msF[j].validationWinRate = some best := by
    intro j hjlen hj
    have h := List.not_of_lt_findIdx hj
    simpa using h
  constructor
  · intro h
    refine ⟨msF.findIdx (fun m => m.validationWinRate = some best), ?_, ?_, ?_, ?_⟩
    · rw [hlenv]
      exact hklt
    · intro j hj
      rw [hKv]
      exact hle _ (hgdmem j (hlenv ▸ hj))
    · intro j hj
      rw [hKv]
      have hjm : j < msF.length := lt_trans hj hklt
      refine lt_of_le_of_ne (hle _ (hgdmem j hjm)) ?_
      intro heq
      apply hkfirst j hjm hj
      rw [hsome _ (hall _ (List.getElem_mem hjm))]
      exact congrArg some (by rw [← hgd j hjm, heq])
    · rw [hlenv]
      omega
  · rintro ⟨i, hi, hmax, hfirst, h4⟩
    have hi2 : i < msF.length := hlenv ▸ hi
    have hbi : v.getD i 0 = best := by
      apply le_antisymm (hle _ (hgdmem i hi2))
      obtain ⟨j0, hj0, hj0eq⟩ := List.getElem_of_mem hmem
      have hb0 : best = v.getD j0 0 := by
        rw [List.getD_eq_getElem?_getD, List.getElem?_eq_getElem hj0]
        simp only [Option.getD_some]
        rw [hj0eq]
      rw [hb0]
      exact hmax j0 hj0
    have hieq : i = msF.findIdx (fun m => m.validationWinRate = some best) := by
      rcases lt_trichotomy i (msF.findIdx (fun m => m.validationWinRate = some best)) with
        hlt | heq | hgt
      · exfalso
        apply hkfirst i hi2 hlt
        rw [hsome _ (hall _ (List.getElem_mem hi2))]
        exact congrArg some (by rw [← hgd i hi2, hbi])
      · exact heq
      · exfalso
        have h5 := hfirst _ hgt
        rw [hKv, hbi] at h5
        exact lt_irrefl _ h5
    rw [← hieq]
    rw [hlenv] at h4
    omega

/-- C7: `shouldStopEarly` returns true exactly when at least 3
validation-bearing records exist and the first record attaining the best
validation win rate lies at least 3 validation-bearing epochs before the
most recent one; and on the synthetic sequence
`[0.5, 0.6, 0.55, 0.5, 0.52]` it stays false for every prefix of length
at most 4 and fires once index 4 is included. -/
theorem shouldStopEarly_spec :
    (∀ ms : List EpochMetrics,
      shouldStopEarly ms 3 3 = true ↔
        (3 ≤ (ms.filter fun m => m.validationWinRate.isSome).length ∧
          ∃ i, i < ((ms.filter fun m => m.validationWinRate.isSome).map
              fun m => m.validationWinRate.getD 0).length ∧
            (∀ j, j < ((ms.filter fun m => m.validationWinRate.isSome).map
                fun m => m.validationWinRate.getD 0).length →
              ((ms.filter fun m => m.validationWinRate.isSome).map
                fun m => m.validationWinRate.getD 0).getD j 0 ≤
                ((ms.filter fun m => m.validationWinRate.isSome).map
                  fun m => m.validationWinRate.getD 0).getD i 0) ∧
            (∀ j, j < i →
              ((ms.filter fun m => m.validationWinRate.isSome).map
                fun m => m.validationWinRate.getD 0).getD j 0 <
                ((ms.filter fun m => m.validationWinRate.isSome).map
                  fun m => m.validationWinRate.getD 0).getD i 0) ∧
            i + 4 ≤ ((ms.filter fun m => m.validationWinRate.isSome).map
              fun m => m.validationWinRate.getD 0).length)) ∧
    shouldStopEarly (stopSeq.take 0) 3 3 = false ∧
    shouldStopEarly (stopSeq.take 1) 3 3 = false ∧
    shouldStopEarly (stopSeq.take 2) 3 3 = false ∧
    shouldStopEarly (stopSeq.take 3) 3 3 = false ∧
    shouldStopEarly (stopSeq.take 4) 3 3 = false ∧
    shouldStopEarly stopSeq 3 3 = true := by
  refine ⟨?_, ?_, ?_, ?_, ?_, ?_, ?_⟩
  · intro ms
    by_cases h1 : ms.length < 3
    · have hf : shouldStopEarly ms 3 3 = false := by
        simp only [shouldStopEarly]
        rw [if_pos h1]
      rw [hf]
      constructor
      · intro h
        simp at h
      · rintro ⟨h3, -⟩
        have hfl := List.length_filter_le (fun m => m.validationWinRate.isSome) ms
        omega
    · by_cases h2 : (ms.filter fun m => m.validationWinRate.isSome).length < 3
      · have hf : shouldStopEarly ms 3 3 = false := by
          simp only [shouldStopEarly]
          rw [if_neg h1, if_pos h2]
        rw [hf]
        constructor
        · intro h
          simp at h
        · rintro ⟨h3, -⟩
          omega
      · have hcore := stop_core (ms.filter fun m => m.validationWinRate.isSome)
          (fun m hm => (List.mem_filter.1 hm).2) (not_lt.mp h2)
        have hf : shouldStopEarly ms 3 3 = true ↔
            3 ≤ (ms.filter fun m => m.validationWinRate.isSome).length - 1 -
              (ms.filter fun m => m.validationWinRate.isSome).findIdx
                (fun m => m.validationWinRate =
                  some (jsMaxList ((ms.filter fun m => m.validationWinRate.isSome).map
                    fun m => m.validationWinRate.getD 0))) := by
          simp only [shouldStopEarly]
          rw [if_neg h1, if_neg h2]
          exact decide_eq_true_iff
        rw [hf]
        constructor
        · intro h
          exact ⟨not_lt.mp h2, hcore.mp h⟩
        · rintro ⟨-, hex⟩
          exact hcore.mpr hex
  · norm_num [shouldStopEarly, stopSeq]
  · norm_num [shouldStopEarly, stopSeq]
  · norm_num [shouldStopEarly, stopSeq]
  · norm_num [shouldStopEarly, stopSeq, mkValMetrics, jsMaxList, List.findIdx_cons,
      Bool.cond_decide, max_def]
  · norm_num [shouldStopEarly, stopSeq, mkValMetrics, jsMaxList, List.findIdx_cons,
      Bool.cond_decide, max_def]
  · norm_num [shouldStopEarly, stopSeq, mkValMetrics, jsMaxList, List.findIdx_cons,
      Bool.cond_decide, max_def]

/-- C7 witness: the characterization applied at the synthetic sequence —
the stop fires on the full 5-record history, whose best validation win
rate first occurs 3 validation-bearing epochs before the end. -/
theorem shouldStopEarly_spec_witness :
    shouldStopEarly stopSeq 3 3 = true ∧
    (3 ≤ (stopSeq.filter fun m => m.validationWinRate.isSome).length ∧
      ∃ i, i < ((stopSeq.filter fun m => m.validationWinRate.isSome).map
          fun m => m.validationWinRate.getD 0).length ∧
        (∀ j, j < ((stopSeq.filter fun m => m.validationWinRate.isSome).map
            fun m => m.validationWinRate.getD 0).length →
          ((stopSeq.filter fun m => m.validationWinRate.isSome).map
            fun m => m.validationWinRate.getD 0).getD j 0 ≤
            ((stopSeq.filter fun m => m.validationWinRate.isSome).map
              fun m => m.validationWinRate.getD 0).getD i 0) ∧
        (∀ j, j < i →
          ((stopSeq.filter fun m => m.validationWinRate.isSome).map
            fun m => m.validationWinRate.getD 0).getD j 0 <
            ((stopSeq.filter fun m => m.validationWinRate.isSome).map
              fun m => m.validationWinRate.getD 0).getD i 0) ∧
        i + 4 ≤ ((stopSeq.filter fun m => m.validationWinRate.isSome).map
          fun m => m.validationWinRate.getD 0).length) := by
  have h := shouldStopEarly_spec
  exact ⟨h.2.2.2.2.2.2, (h.1 stopSeq).mp h.2.2.2.2.2.2⟩

end




